import Mathlib

/-!
Romulus: bootstrap, layout and publication of the `read` microbenchmark

A shallow embedding of `src/microbench/read.cc` (`main` and its worker
lambda) and of `romulus::Status` from `src/include/romulus/logging.h`.

* `uint64_t` values are natural numbers below `U64 = 2 ^ 64`; every
  arithmetic operation of the source is reduced modulo `U64`.
* Calls on collaborators whose code is outside these files (`MemoryNode`,
  `ComputeNode`, `AsyncComputeThread`, `Driver`, `util::Metrics`) are
  recorded as events of a trace and are taken to return normally.
* The loop that fills `memnodes` runs on fuel; `none` means that the fuel
  ran out before the loop left.
-/

namespace Romulus

/-! ## 64-bit unsigned arithmetic -/

/-- Number of values of a `uint64_t`. -/
def U64 : Nat := 2 ^ 64

/-- Wrapping `a + b` on `uint64_t`. -/
def u64add (a b : Nat) : Nat := (a + b) % U64

/-- Wrapping `a - b` on `uint64_t` (for `b < U64`). -/
def u64sub (a b : Nat) : Nat := (a + U64 - b) % U64

/-- Wrapping `a * b` on `uint64_t`. -/
def u64mul (a b : Nat) : Nat := (a * b) % U64

/-! ## `romulus::Status` (logging.h) -/

/-- The enum `StatusType`. -/
inductive StatusType
  | Ok
  | InternalError
  | Unavailable
  | Aborted
  deriving DecidableEq, Repr

/-- The struct `Status`: a type and an optional message. -/
structure Status where
  t : StatusType
  message : Option String
  deriving DecidableEq, Repr

/-- Source: `static Status Ok() { return {StatusType::Ok, {}}; }` -/
def Status.Ok : Status := { t := StatusType.Ok, message := none }

/-- Source: `Status::operator<<(T t)`: `curr` is the message or `""`; the stream
receives `curr` and then `t`; `message = s.str(); return *this;`.
The text a stream produces for `t` is `toString t`.  The result pairs the
returned copy with the object after the call. -/
def Status.shl {T : Type} [ToString T] (self : Status) (t : T) : Status × Status :=
  let curr : String := match self.message with
    | some m => m
    | none => ""
  let s : String := curr ++ toString t
  let self1 : Status := { self with message := some s }
  (self1, self1)

/-! ## Arguments read by `main` -/

/-- The values `main` reads from the `ArgMap` (`uget` / `sget`), under the
names of their keys. -/
structure Args where
  NODE_ID : Nat
  FIRST_MN_ID : Nat
  LAST_MN_ID : Nat
  FIRST_CN_ID : Nat
  LAST_CN_ID : Nat
  CN_THREADS : Nat
  CN_OPS_PER_THREAD : Nat
  QP_SCHED_POL : String
  PAYLOAD_SIZE : Nat
  CAPACITY : Nat
  deriving DecidableEq, Repr

/-- Every `uget` value is a `uint64_t`. -/
def Args.valid (a : Args) : Prop :=
  a.NODE_ID < U64 ∧ a.FIRST_MN_ID < U64 ∧ a.LAST_MN_ID < U64 ∧
  a.FIRST_CN_ID < U64 ∧ a.LAST_CN_ID < U64 ∧ a.CN_THREADS < U64 ∧
  a.CN_OPS_PER_THREAD < U64 ∧ a.PAYLOAD_SIZE < U64 ∧ a.CAPACITY < U64

instance (a : Args) : Decidable a.valid := by
  unfold Args.valid; infer_instance

/-- Source: `uint64_t system_size = (cn - c0 + 1);` -/
def system_size (c0 cn : Nat) : Nat := u64add (u64sub cn c0) 1

/-- Source: `uint64_t total_threads = (cn - c0 + 1) * args->uget(romulus::CN_THREADS);` -/
def total_threads (c0 cn threads : Nat) : Nat := u64mul (u64add (u64sub cn c0) 1) threads

/-- The element count of `t->allocate<State>((2 * capacity) + payload_size)`. -/
def allocCount (capacity payload_size : Nat) : Nat :=
  u64add (u64mul 2 capacity) payload_size

/-- The slot offset of `base + (id * args->uget(romulus::CN_THREADS)) + t->get_tid()`:
the global thread id, in 64-bit unsigned arithmetic. -/
def globalThreadId (id threads tid : Nat) : Nat := u64add (u64mul id threads) tid

/-! ## Region layout -/

/-- A half-open range `[lo, hi)` of element offsets. -/
structure Range where
  lo : Nat
  hi : Nat
  deriving DecidableEq, Repr

/-- Membership of an offset in a range. -/
def Range.contains (r : Range) (x : Nat) : Prop := r.lo ≤ x ∧ x < r.hi

instance (r : Range) (x : Nat) : Decidable (r.contains x) := by
  unfold Range.contains; infer_instance

/-- The layout drawn in the comment above the allocation of the worker
lambda: `Proposed -- capacity`. -/
def Proposed (capacity : Nat) : Range := { lo := 0, hi := capacity }

/-- The layout comment: `Log -- capacity`, after `Proposed`. -/
def Log (capacity : Nat) : Range := { lo := capacity, hi := 2 * capacity }

/-- The layout comment: `Buf -- payload size`, after `Log`. -/
def Buf (capacity payload_size : Nat) : Range :=
  { lo := 2 * capacity, hi := 2 * capacity + payload_size }

/-! ## The worker lambda of `main` -/

/-- The calls a worker thread makes on its collaborators, in program order. -/
inductive ThreadCall
  /-- Source: `t->arrive_control_barrier(total)` -/
  | arrive_control_barrier (total : Nat)
  /-- Source: `t->allocate<State>(count)` -/
  | allocate (count : Nat)
  /-- Source: `t->get_root<romulus::rdma_ptr<State>>()` -/
  | get_root
  /-- Source: `t->Write(base + offset, value)` -/
  | Write (base offset value : Nat)
  /-- Source: `Driver driver(metrics, t, total_threads, system_size, args); driver.RUN();` -/
  | RUN (total_threads system_size : Nat)
  /-- Source: `metric_total.at(tid) = metrics;` -/
  | store_metrics (tid : Nat)
  deriving DecidableEq, Repr

/-- Whether a call is an arrival at the control barrier. -/
def ThreadCall.isArrive : ThreadCall → Bool
  | .arrive_control_barrier _ => true
  | _ => false

/-- Whether a call is the allocation or the root-table write. -/
def ThreadCall.isPublish : ThreadCall → Bool
  | .allocate _ => true
  | .Write _ _ _ => true
  | _ => false

/-- Whether a call starts the experiment. -/
def ThreadCall.isRun : ThreadCall → Bool
  | .RUN _ _ => true
  | _ => false

/-- Whether a call stores the thread's metrics. -/
def ThreadCall.isStore : ThreadCall → Bool
  | .store_metrics _ => true
  | _ => false

/-- Number of barrier arrivals among the first `k` calls. -/
def arrivalsBefore (calls : List ThreadCall) (k : Nat) : Nat :=
  ((calls.take k).filter ThreadCall.isArrive).length

/-- The body of the worker lambda (read.cc, lines 109-153) of the thread
with local index `tid`.  `root` is what `get_root` returns and `peer_raw`
what `allocate` returns. -/
def worker (args : Args) (root peer_raw tid : Nat) : List ThreadCall :=
  let id := args.NODE_ID
  let total := total_threads args.FIRST_CN_ID args.LAST_CN_ID args.CN_THREADS
  let size := system_size args.FIRST_CN_ID args.LAST_CN_ID
  let payload_size := args.PAYLOAD_SIZE
  let capacity := args.CAPACITY
  [ ThreadCall.arrive_control_barrier total,
    ThreadCall.allocate (allocCount capacity payload_size),
    ThreadCall.get_root,
    ThreadCall.Write root (globalThreadId id args.CN_THREADS tid) peer_raw,
    ThreadCall.arrive_control_barrier total,
    ThreadCall.RUN total size,
    ThreadCall.arrive_control_barrier total,
    ThreadCall.store_metrics tid ]

/-! ## `main` -/

/-- A `romulus::MachineInfo(i, id_to_dns_name(i))`: the address is a function
of the identifier, so the identifier stands for the pair. -/
structure MachineInfo where
  id : Nat
  deriving DecidableEq, Repr

/-- The loop `for (uint64_t i = m0; i <= mn; ++i) memnodes.emplace_back(...)`.
One unit of fuel per evaluation of the loop condition. -/
def memnodesLoop : Nat → Nat → Nat → List MachineInfo → Option (List MachineInfo)
  | 0, _, _, _ => none
  | fuel + 1, i, mn, memnodes =>
    if i ≤ mn then memnodesLoop fuel (u64add i 1) mn (memnodes ++ [MachineInfo.mk i])
    else some memnodes

/-- The calls of the main thread on its collaborators, in program order. -/
inductive Action (M : Type)
  /-- Source: `memory_node.reset(new romulus::MemoryNode(self, args))` -/
  | MemoryNode (self : MachineInfo)
  /-- Source: `compute_node.reset(new romulus::ComputeNode(self, args))` -/
  | ComputeNode (self : MachineInfo)
  /-- Source: `memory_node->get_local_rkeys()` -/
  | get_local_rkeys
  /-- Source: `compute_node->connect_local(memnodes, rkeys)` -/
  | connect_local (memnodes : List MachineInfo)
  /-- Source: `compute_node->connect_remote(memnodes)` -/
  | connect_remote (memnodes : List MachineInfo)
  /-- Source: `memory_node->init_done()` -/
  | init_done
  /-- Source: `std::make_shared<AsyncComputeThread<State>>(id, compute_node, args)` -/
  | AsyncComputeThread (id : Nat)
  /-- Source: `ROMULUS_INFO(...)` -/
  | info (msg : String)
  /-- Source: `compute_threads[0]->allocate<romulus::rdma_ptr<State>>(count)` -/
  | allocate_root (count : Nat)
  /-- Source: `compute_threads[0]->set_root(p)` -/
  | set_root (p : Nat)
  /-- Source: `std::thread(...)` running the worker lambda of the thread `tid` -/
  | spawn (tid : Nat) (body : List ThreadCall)
  /-- Source: `t.join()` -/
  | join (tid : Nat)
  /-- Source: `util::calc(r, total)` -/
  | util_calc (total : M)
  /-- Source: `util::print(r, total)` -/
  | util_print (total : M)
  /-- Source: `util::log_csv(r, total, file)` -/
  | util_log_csv (total : M) (file : String)

/-- How the process ends. -/
inductive Exit
  /-- Source: `return code;` from `main` -/
  | returned (code : Nat)
  /-- Source: `print_fatal(msg); std::_Exit(code);` -/
  | fatal (code : Nat) (msg : String)
  /-- Source: `compute_threads[0]` on an empty vector: behaviour undefined -/
  | undefined
  deriving DecidableEq, Repr

/-- What a run of `main` did and how it ended. -/
structure Outcome (M : Type) where
  trace : List (Action M)
  exit : Exit

/-- What the collaborators return to this process. -/
structure Env (M : Type) where
  /-- The pointer `allocate<rdma_ptr<State>>` returns for the root table,
  which `get_root` returns afterwards. -/
  root : Nat
  /-- The pointer `allocate<State>` returns to the local thread `tid`. -/
  peer_raw : Nat → Nat
  /-- The accumulator the local thread `tid` holds after `driver.RUN()`. -/
  metrics : Nat → M

/-- The bootstrap of `main` (read.cc, lines 43-72; the same text in
tests/read.cc, lines 40-69), after `memnodes` is filled. -/
def bootstrap {M : Type} (id m0 mn c0 cn : Nat) (memnodes : List MachineInfo) :
    List (Action M) :=
  let self := MachineInfo.mk id
  -- std::unique_ptr<romulus::MemoryNode> memory_node;  (true: holds an object)
  let memory_node : Bool := decide (id ≥ m0 ∧ id ≤ mn)
  let step1 : List (Action M) := if id ≥ m0 ∧ id ≤ mn then [Action.MemoryNode self] else []
  let step2 : List (Action M) :=
    if id ≥ c0 ∧ id ≤ cn then
      [Action.ComputeNode self]
        ++ (if memory_node then [Action.get_local_rkeys, Action.connect_local memnodes] else [])
        ++ [Action.connect_remote memnodes]
    else []
  let step3 : List (Action M) := if memory_node then [Action.init_done] else []
  step1 ++ step2 ++ step3

/-- Source: `metric_total.at(tid) = metrics;` -/
def storeMetrics {M : Type} (metric_total : List (Option M)) (tid : Nat) (m : M) :
    List (Option M) :=
  metric_total.set tid (some m)

/-- The vector `metric_total` once every worker has been joined:
`resize(compute_threads.size())` and then one store per worker. -/
def joinedMetrics {M : Type} (threads : Nat) (metrics : Nat → M) : List (Option M) :=
  (List.range threads).foldl (fun mt tid => storeMetrics mt tid (metrics tid))
    (List.replicate threads none)

/-- The leader's loop `for (const auto &m : metric_total) if (m) total += *m;`
from a default-constructed `util::Metrics total`. -/
def reduceMetrics {M : Type} [Zero M] [Add M] (metric_total : List (Option M)) : M :=
  metric_total.foldl (fun total m => match m with
    | some x => total + x
    | none => total) 0

/-- The part of `main` inside `if (id >= c0 && id <= cn)` (read.cc, lines
78-173), entered with the trace so far. -/
def computePhase {M : Type} [Zero M] [Add M] (args : Args) (env : Env M)
    (sofar : List (Action M)) : Outcome M :=
  let id := args.NODE_ID
  let threads := args.CN_THREADS
  let total := total_threads args.FIRST_CN_ID args.LAST_CN_ID threads
  let t1 := sofar ++ (List.range threads).map (fun _ => Action.AsyncComputeThread id)
    ++ [Action.info ("Starting Cas-Paxos experiment with " ++ toString total ++ " threads")]
  if id = 0 ∧ threads = 0 then
    -- compute_threads[0] with compute_threads empty
    { trace := t1, exit := Exit.undefined }
  else
    let t2 := if id = 0 then t1 ++ [Action.allocate_root total, Action.set_root env.root] else t1
    if total ≠ args.CN_OPS_PER_THREAD then
      { trace := t2, exit := Exit.fatal 1 "Must have batch size equal to system size." }
    else if args.QP_SCHED_POL ≠ "ONE_TO_ONE" then
      { trace := t2,
        exit := Exit.fatal 1 "Only supports ONE_TO_ONE scheduling policy at this time." }
    else
      let t3 := t2
        ++ (List.range threads).map
            (fun tid => Action.spawn tid (worker args env.root (env.peer_raw tid) tid))
        ++ (List.range threads).map (fun tid => Action.join tid)
      let t4 :=
        if id = 0 then
          let total_metrics := reduceMetrics (joinedMetrics threads env.metrics)
          t3 ++ [Action.util_calc total_metrics, Action.info "Experiment results:",
                 Action.util_print total_metrics,
                 Action.util_log_csv total_metrics "results.csv"]
        else t3
      { trace := t4 ++ [Action.info "Cas-Paxos experiment completed successfully."],
        exit := Exit.returned 0 }

/-- The function `main` of read.cc.  `none`: the `memnodes` loop used up
the fuel. -/
def main {M : Type} [Zero M] [Add M] (args : Args) (env : Env M) (fuel : Nat) :
    Option (Outcome M) :=
  let id := args.NODE_ID
  let m0 := args.FIRST_MN_ID
  let mn := args.LAST_MN_ID
  let c0 := args.FIRST_CN_ID
  let cn := args.LAST_CN_ID
  match memnodesLoop fuel m0 mn [] with
  | none => none
  | some memnodes =>
    let boot : List (Action M) := bootstrap id m0 mn c0 cn memnodes
    if id ≥ c0 ∧ id ≤ cn then some (computePhase args env boot)
    else some { trace := boot, exit := Exit.returned 0 }

/-! ## Root publication -/

/-- Modelled from the spec: the RootTable is a remote array of remote-pointer
slots; `t->Write(base + offset, value)` (compute_thread.h, not among the
sources) stores `value` in the slot `offset` of the array at `base`.  A slot
holds `none` until it is written; a write past the end leaves the table as
it is. -/
def remoteWrite (table : List (Option Nat)) (offset value : Nat) : List (Option Nat) :=
  table.set offset (some value)

/-- The root table as `main` creates it: only the process with `id == 0`
allocates it, inside its compute-node branch (`c0 <= 0 <= cn`), from
`compute_threads[0]` (which needs a thread), with `total_threads` slots. -/
def rootAlloc (c0 cn threads : Nat) : Option (List (Option Nat)) :=
  if 0 ≥ c0 ∧ 0 ≤ cn ∧ threads ≠ 0 then
    some (List.replicate (total_threads c0 cn threads) none)
  else none

/-- The root-table writes of the worker lambdas, in the order `schedule`
lists the threads (node id, local index); `peer_raw id tid` is the base
address the thread allocated. -/
def publish (threads : Nat) (peer_raw : Nat → Nat → Nat) (schedule : List (Nat × Nat))
    (table : List (Option Nat)) : List (Option Nat) :=
  schedule.foldl
    (fun tb p => remoteWrite tb (globalThreadId p.1 threads p.2) (peer_raw p.1 p.2)) table

/-- Every compute thread of every compute node occurs in the schedule, and
nothing else does. -/
def completeSchedule (c0 cn threads : Nat) (schedule : List (Nat × Nat)) : Prop :=
  (∀ p ∈ schedule, c0 ≤ p.1 ∧ p.1 ≤ cn ∧ p.2 < threads) ∧
  (∀ id tid, c0 ≤ id → id ≤ cn → tid < threads → (id, tid) ∈ schedule)

/-- The metrics value an action hands to `util::calc`, `util::print` or
`util::log_csv`, if it is one of these calls. -/
def Action.reductionArg {M : Type} : Action M → Option M
  | Action.util_calc total => some total
  | Action.util_print total => some total
  | Action.util_log_csv total _ => some total
  | _ => none

/-- The metrics values handed to `util::calc`, `util::print` and
`util::log_csv`, in program order. -/
def reductionCalls {M : Type} (trace : List (Action M)) : List M :=
  trace.filterMap Action.reductionArg

/-- The merge of the accumulators of the threads of one process: what the
worker lambdas of this process stored in `metric_total`, added up from a
default-constructed total in the order of the local thread index. -/
def localTotal {M : Type} [Zero M] [Add M] (threads : Nat) (metrics : Nat → M) : M :=
  (List.range threads).foldl (fun total tid => total + metrics tid) 0

/-- In the words of the specification: the merge of the accumulators of all
threads of all compute machines `c0 .. cn`, where `metricsOf id tid` is the
accumulator of the thread `tid` of the machine `id`. -/
def specGlobalTotal {M : Type} [Zero M] [Add M] (c0 cn threads : Nat)
    (metricsOf : Nat → Nat → M) : M :=
  (List.range' c0 (cn + 1 - c0)).foldl
    (fun acc id => (List.range threads).foldl (fun a tid => a + metricsOf id tid) acc) 0

/-- Whether an action belongs to the bootstrap of `main` (lines 43-72). -/
def Action.isBootstrap {M : Type} : Action M → Bool
  | Action.MemoryNode _ => true
  | Action.ComputeNode _ => true
  | Action.get_local_rkeys => true
  | Action.connect_local _ => true
  | Action.connect_remote _ => true
  | Action.init_done => true
  | _ => false

/-- Whether an action constructs the `MemoryNode`. -/
def Action.isMemoryNode {M : Type} : Action M → Bool
  | Action.MemoryNode _ => true
  | _ => false

/-- Whether an action constructs the `ComputeNode`. -/
def Action.isComputeNode {M : Type} : Action M → Bool
  | Action.ComputeNode _ => true
  | _ => false

/-- The vector `memnodes` after the loop over `m0 .. mn`. -/
def memnodesOf (m0 mn : Nat) : List MachineInfo :=
  (List.range' m0 (mn + 1 - m0)).map MachineInfo.mk

/-- An environment of natural-number metrics: every thread counts one
operation, pointers are small numbers. -/
def envOne : Env Nat := { root := 1000, peer_raw := fun tid => 2000 + tid, metrics := fun _ => 1 }

/-- One process in both roles, but with `LAST_MN_ID = 2 ^ 64 - 1`. -/
def argsLastMnMax : Args :=
  { NODE_ID := 0, FIRST_MN_ID := 0, LAST_MN_ID := 2 ^ 64 - 1, FIRST_CN_ID := 0,
    LAST_CN_ID := 0, CN_THREADS := 1, CN_OPS_PER_THREAD := 1,
    QP_SCHED_POL := "ONE_TO_ONE", PAYLOAD_SIZE := 8, CAPACITY := 4 }

/-- The only memory node, with the identifier `2 ^ 64 - 1`; the compute
range is `0 .. 0`. -/
def argsMemoryOnlyMax : Args :=
  { NODE_ID := 2 ^ 64 - 1, FIRST_MN_ID := 2 ^ 64 - 1, LAST_MN_ID := 2 ^ 64 - 1, FIRST_CN_ID := 0,
    LAST_CN_ID := 0, CN_THREADS := 1, CN_OPS_PER_THREAD := 1,
    QP_SCHED_POL := "ONE_TO_ONE", PAYLOAD_SIZE := 8, CAPACITY := 4 }

/-- The process `0` as the only node, in both roles, with no thread per
node and a batch size of one. -/
def argsNoThreads : Args :=
  { NODE_ID := 0, FIRST_MN_ID := 0, LAST_MN_ID := 0, FIRST_CN_ID := 0,
    LAST_CN_ID := 0, CN_THREADS := 0, CN_OPS_PER_THREAD := 1,
    QP_SCHED_POL := "ONE_TO_ONE", PAYLOAD_SIZE := 8, CAPACITY := 4 }

/-- A compute node with a wrong batch size whose memory range ends at
`2 ^ 64 - 1`. -/
def argsBadBatchMax : Args :=
  { NODE_ID := 1, FIRST_MN_ID := 0, LAST_MN_ID := 2 ^ 64 - 1, FIRST_CN_ID := 0,
    LAST_CN_ID := 1, CN_THREADS := 1, CN_OPS_PER_THREAD := 7,
    QP_SCHED_POL := "ONE_TO_ONE", PAYLOAD_SIZE := 8, CAPACITY := 4 }

/-- The end-to-end scenario of the specification: `m0 = mn = c0 = cn = 0`,
one thread, `capacity = 4`, `payload_size = 8`. -/
def argsSingle : Args :=
  { NODE_ID := 0, FIRST_MN_ID := 0, LAST_MN_ID := 0, FIRST_CN_ID := 0,
    LAST_CN_ID := 0, CN_THREADS := 1, CN_OPS_PER_THREAD := 1,
    QP_SCHED_POL := "ONE_TO_ONE", PAYLOAD_SIZE := 8, CAPACITY := 4 }

/-- The leader of two compute machines `0 .. 1` with one thread each. -/
def argsLeaderOfTwo : Args :=
  { NODE_ID := 0, FIRST_MN_ID := 0, LAST_MN_ID := 0, FIRST_CN_ID := 0,
    LAST_CN_ID := 1, CN_THREADS := 1, CN_OPS_PER_THREAD := 2,
    QP_SCHED_POL := "ONE_TO_ONE", PAYLOAD_SIZE := 8, CAPACITY := 4 }

/-! ## The `memnodes` loop -/

/-- With `mn = 2 ^ 64 - 1` the loop condition `i <= mn` holds for every
`uint64_t`, and no amount of fuel lets the loop leave. -/
theorem memnodesLoop_max (fuel : Nat) :
    ∀ (i : Nat) (acc : List MachineInfo), i < U64 → memnodesLoop fuel i (U64 - 1) acc = none := by
  induction fuel with
  | zero => intro i acc _; rfl
  | succ f ih =>
    intro i acc hi
    have hle : i ≤ U64 - 1 := by omega
    simp only [memnodesLoop, if_pos hle]
    apply ih
    unfold u64add
    exact Nat.mod_lt _ (by simp [U64])

/-- Below `2 ^ 64 - 1` the loop leaves after `mn + 1 - i` rounds with the
machines `i .. mn` appended. -/
theorem memnodesLoop_exit (mn : Nat) (hmn : mn + 1 < U64) :
    ∀ (n i fuel : Nat) (acc : List MachineInfo), n = mn + 1 - i → n < fuel →
      memnodesLoop fuel i mn acc = some (acc ++ (List.range' i n).map MachineInfo.mk) := by
  intro n
  induction n with
  | zero =>
    intro i fuel acc hn hf
    obtain ⟨f, rfl⟩ : ∃ f, fuel = f + 1 := ⟨fuel - 1, by omega⟩
    have hgt : ¬ i ≤ mn := by omega
    simp [memnodesLoop, hgt]
  | succ k ih =>
    intro i fuel acc hn hf
    obtain ⟨f, rfl⟩ : ∃ f, fuel = f + 1 := ⟨fuel - 1, by omega⟩
    have hle : i ≤ mn := by omega
    have hstep : u64add i 1 = i + 1 := by
      unfold u64add
      exact Nat.mod_eq_of_lt (by omega)
    simp only [memnodesLoop, if_pos hle, hstep]
    rw [ih (i + 1) f _ (by omega) (by omega)]
    simp [List.range'_succ]

/-- When `LAST_MN_ID` is below `2 ^ 64 - 1`, `mn + 2` units of fuel are
enough for `main`, which then runs the bootstrap and, on a compute node, the
compute phase. -/
theorem main_eq {M : Type} [Zero M] [Add M] (args : Args) (env : Env M) (fuel : Nat)
    (hmn : args.LAST_MN_ID + 1 < U64) (hfuel : args.LAST_MN_ID + 2 ≤ fuel) :
    main args env fuel =
      some (if args.NODE_ID ≥ args.FIRST_CN_ID ∧ args.NODE_ID ≤ args.LAST_CN_ID then
        computePhase args env
          (bootstrap args.NODE_ID args.FIRST_MN_ID args.LAST_MN_ID args.FIRST_CN_ID
            args.LAST_CN_ID (memnodesOf args.FIRST_MN_ID args.LAST_MN_ID))
      else
        { trace := bootstrap args.NODE_ID args.FIRST_MN_ID args.LAST_MN_ID args.FIRST_CN_ID
            args.LAST_CN_ID (memnodesOf args.FIRST_MN_ID args.LAST_MN_ID),
          exit := Exit.returned 0 }) := by
  have h := memnodesLoop_exit args.LAST_MN_ID hmn (args.LAST_MN_ID + 1 - args.FIRST_MN_ID)
    args.FIRST_MN_ID fuel [] rfl (by omega)
  simp only [List.nil_append] at h
  unfold main
  simp only [h, memnodesOf]
  split <;> rfl

/-- With `LAST_MN_ID = 2 ^ 64 - 1`, `main` never gets past the `memnodes`
loop. -/
theorem main_diverges {M : Type} [Zero M] [Add M] (args : Args) (env : Env M) (fuel : Nat)
    (hm0 : args.FIRST_MN_ID < U64) (hmn : args.LAST_MN_ID = U64 - 1) :
    main args env fuel = none := by
  unfold main
  simp only [hmn, memnodesLoop_max fuel args.FIRST_MN_ID [] hm0]

/-! ## Traces of `main` -/

/-- The compute phase adds no bootstrap action to the trace. -/
theorem computePhase_filter {M : Type} [Zero M] [Add M] (args : Args) (env : Env M)
    (sofar : List (Action M)) (p : Action M → Bool)
    (hp : ∀ a : Action M, a.isBootstrap = false → p a = false) :
    (computePhase args env sofar).trace.filter p = sofar.filter p := by
  have hmap : ∀ (f : Nat → Action M) (n : Nat), (∀ i, (f i).isBootstrap = false) →
      ((List.range n).map f).filter p = [] := by
    intro f n hf
    rw [List.filter_eq_nil_iff]
    intro a ha
    obtain ⟨i, _, rfl⟩ := List.mem_map.mp ha
    simp [hp _ (hf i)]
  have h1 := hmap (fun _ => Action.AsyncComputeThread args.NODE_ID) args.CN_THREADS
    (fun _ => rfl)
  have h2 := hmap (fun tid => Action.spawn tid (worker args env.root (env.peer_raw tid) tid))
    args.CN_THREADS (fun _ => rfl)
  have h3 := hmap (fun tid => Action.join tid) args.CN_THREADS (fun _ => rfl)
  have hi : ∀ m, p (Action.info m : Action M) = false := fun m => hp _ rfl
  have ha : ∀ c, p (Action.allocate_root c : Action M) = false := fun c => hp _ rfl
  have hs : ∀ c, p (Action.set_root c : Action M) = false := fun c => hp _ rfl
  have hc : ∀ c, p (Action.util_calc c : Action M) = false := fun c => hp _ rfl
  have hpr : ∀ c, p (Action.util_print c : Action M) = false := fun c => hp _ rfl
  have hl : ∀ c f, p (Action.util_log_csv c f : Action M) = false := fun c f => hp _ rfl
  have hat : ∀ c, p (Action.AsyncComputeThread c : Action M) = false := fun c => hp _ rfl
  unfold computePhase
  simp only []
  split_ifs <;>
    simp [List.filter_append, List.filter_cons, h1, h2, h3, hi, ha, hs, hc, hpr, hl, hat]

/-- The bootstrap in the order of C6: memory node, compute node, local
keys and local connection, remote connection, `init_done`. -/
theorem bootstrap_eq {M : Type} (id m0 mn c0 cn : Nat) (memnodes : List MachineInfo) :
    (bootstrap id m0 mn c0 cn memnodes : List (Action M)) =
      (if m0 ≤ id ∧ id ≤ mn then [Action.MemoryNode (MachineInfo.mk id)] else [])
      ++ (if c0 ≤ id ∧ id ≤ cn then [Action.ComputeNode (MachineInfo.mk id)] else [])
      ++ (if (m0 ≤ id ∧ id ≤ mn) ∧ (c0 ≤ id ∧ id ≤ cn) then
            [Action.get_local_rkeys, Action.connect_local memnodes] else [])
      ++ (if c0 ≤ id ∧ id ≤ cn then [Action.connect_remote memnodes] else [])
      ++ (if m0 ≤ id ∧ id ≤ mn then [Action.init_done] else []) := by
  unfold bootstrap
  by_cases hm : m0 ≤ id ∧ id ≤ mn <;> by_cases hc : c0 ≤ id ∧ id ≤ cn <;>
    simp [hm, hc, ge_iff_le]

/-- Below `LAST_MN_ID = 2 ^ 64 - 1`, `main` produces an outcome, and its
bootstrap actions are, in this order: the memory node (iff the id is in the
memory range), the compute node (iff in the compute range), `get_local_rkeys`
and `connect_local` (iff in both), `connect_remote` (iff in the compute
range), `init_done` (iff in the memory range). -/
theorem main_bootstrap_order {M : Type} [Zero M] [Add M] (args : Args) (env : Env M)
    (fuel : Nat) (hmn : args.LAST_MN_ID + 1 < U64) (hfuel : args.LAST_MN_ID + 2 ≤ fuel) :
    ∃ out, main args env fuel = some out ∧
      out.trace.filter Action.isBootstrap =
        (if args.FIRST_MN_ID ≤ args.NODE_ID ∧ args.NODE_ID ≤ args.LAST_MN_ID then
            [Action.MemoryNode (MachineInfo.mk args.NODE_ID)] else [])
        ++ (if args.FIRST_CN_ID ≤ args.NODE_ID ∧ args.NODE_ID ≤ args.LAST_CN_ID then
            [Action.ComputeNode (MachineInfo.mk args.NODE_ID)] else [])
        ++ (if (args.FIRST_MN_ID ≤ args.NODE_ID ∧ args.NODE_ID ≤ args.LAST_MN_ID) ∧
               (args.FIRST_CN_ID ≤ args.NODE_ID ∧ args.NODE_ID ≤ args.LAST_CN_ID) then
            [Action.get_local_rkeys,
             Action.connect_local (memnodesOf args.FIRST_MN_ID args.LAST_MN_ID)] else [])
        ++ (if args.FIRST_CN_ID ≤ args.NODE_ID ∧ args.NODE_ID ≤ args.LAST_CN_ID then
            [Action.connect_remote (memnodesOf args.FIRST_MN_ID args.LAST_MN_ID)] else [])
        ++ (if args.FIRST_MN_ID ≤ args.NODE_ID ∧ args.NODE_ID ≤ args.LAST_MN_ID then
            [Action.init_done] else []) := by
  refine ⟨_, main_eq args env fuel hmn hfuel, ?_⟩
  have hb : ∀ l : List MachineInfo,
      (bootstrap args.NODE_ID args.FIRST_MN_ID args.LAST_MN_ID args.FIRST_CN_ID
        args.LAST_CN_ID l : List (Action M)).filter Action.isBootstrap
      = bootstrap args.NODE_ID args.FIRST_MN_ID args.LAST_MN_ID args.FIRST_CN_ID
        args.LAST_CN_ID l := by
    intro l
    rw [bootstrap_eq]
    by_cases hm : args.FIRST_MN_ID ≤ args.NODE_ID ∧ args.NODE_ID ≤ args.LAST_MN_ID <;>
      by_cases hc : args.FIRST_CN_ID ≤ args.NODE_ID ∧ args.NODE_ID ≤ args.LAST_CN_ID <;>
      simp [hm, hc, Action.isBootstrap]
  rw [← bootstrap_eq]
  split_ifs
  · rw [computePhase_filter args env _ Action.isBootstrap (fun _ h => h), hb]
  · exact hb _

/-- Below `LAST_MN_ID = 2 ^ 64 - 1`, `main` constructs a `MemoryNode` iff
`m0 <= id <= mn` and a `ComputeNode` iff `c0 <= id <= cn`, each decision
being independent of the other. -/
theorem main_role_resolution {M : Type} [Zero M] [Add M] (args : Args) (env : Env M)
    (fuel : Nat) (hmn : args.LAST_MN_ID + 1 < U64) (hfuel : args.LAST_MN_ID + 2 ≤ fuel) :
    ∃ out, main args env fuel = some out ∧
      ((∃ a ∈ out.trace, a.isMemoryNode = true) ↔
        (args.FIRST_MN_ID ≤ args.NODE_ID ∧ args.NODE_ID ≤ args.LAST_MN_ID)) ∧
      ((∃ a ∈ out.trace, a.isComputeNode = true) ↔
        (args.FIRST_CN_ID ≤ args.NODE_ID ∧ args.NODE_ID ≤ args.LAST_CN_ID)) := by
  obtain ⟨out, hout, hf⟩ := main_bootstrap_order args env fuel hmn hfuel
  refine ⟨out, hout, ?_, ?_⟩
  · constructor
    · rintro ⟨a, ha, hm⟩
      have hb : a.isBootstrap = true := by cases a <;> simp_all [Action.isMemoryNode, Action.isBootstrap]
      have hmem : a ∈ out.trace.filter Action.isBootstrap := List.mem_filter.mpr ⟨ha, hb⟩
      rw [hf] at hmem
      by_contra hne
      by_cases hcc : args.FIRST_CN_ID ≤ args.NODE_ID ∧ args.NODE_ID ≤ args.LAST_CN_ID
      · simp [hne, hcc] at hmem
        rcases hmem with h | h <;> rw [h] at hm <;> simp [Action.isMemoryNode] at hm
      · simp [hne, hcc] at hmem
    · intro h
      refine ⟨Action.MemoryNode (MachineInfo.mk args.NODE_ID), ?_, rfl⟩
      have : Action.MemoryNode (MachineInfo.mk args.NODE_ID)
          ∈ out.trace.filter Action.isBootstrap := by
        rw [hf]; simp [h]
      exact (List.mem_filter.mp this).1
  · constructor
    · rintro ⟨a, ha, hm⟩
      have hb : a.isBootstrap = true := by cases a <;> simp_all [Action.isComputeNode, Action.isBootstrap]
      have hmem : a ∈ out.trace.filter Action.isBootstrap := List.mem_filter.mpr ⟨ha, hb⟩
      rw [hf] at hmem
      by_contra hne
      by_cases hmm : args.FIRST_MN_ID ≤ args.NODE_ID ∧ args.NODE_ID ≤ args.LAST_MN_ID
      · simp [hne, hmm] at hmem
        rcases hmem with h | h <;> rw [h] at hm <;> simp [Action.isComputeNode] at hm
      · simp [hne, hmm] at hmem
    · intro h
      refine ⟨Action.ComputeNode (MachineInfo.mk args.NODE_ID), ?_, rfl⟩
      have : Action.ComputeNode (MachineInfo.mk args.NODE_ID)
          ∈ out.trace.filter Action.isBootstrap := by
        rw [hf]; simp [h]
      exact (List.mem_filter.mp this).1

/-- Every outcome of `main` is the bootstrap followed, on a compute node, by
the compute phase, for the `memnodes` the loop has built. -/
theorem main_some {M : Type} [Zero M] [Add M] (args : Args) (env : Env M) (fuel : Nat)
    (out : Outcome M) (h : main args env fuel = some out) :
    ∃ memnodes : List MachineInfo,
      out = (if args.NODE_ID ≥ args.FIRST_CN_ID ∧ args.NODE_ID ≤ args.LAST_CN_ID then
        computePhase args env
          (bootstrap args.NODE_ID args.FIRST_MN_ID args.LAST_MN_ID args.FIRST_CN_ID
            args.LAST_CN_ID memnodes)
      else
        { trace := bootstrap args.NODE_ID args.FIRST_MN_ID args.LAST_MN_ID args.FIRST_CN_ID
            args.LAST_CN_ID memnodes,
          exit := Exit.returned 0 }) := by
  unfold main at h
  cases hl : memnodesLoop fuel args.FIRST_MN_ID args.LAST_MN_ID [] with
  | none => simp [hl] at h
  | some memnodes =>
    refine ⟨memnodes, ?_⟩
    simp only [hl] at h
    split_ifs at h ⊢ <;> exact (Option.some.inj h).symm

/-- Only the process `0`, as a compute node that has a thread, allocates a
root table, and it asks for `total_threads` slots. -/
theorem main_allocate_root {M : Type} [Zero M] [Add M] (args : Args) (env : Env M)
    (fuel : Nat) (out : Outcome M) (h : main args env fuel = some out)
    (count : Nat) (hmem : Action.allocate_root count ∈ out.trace) :
    args.NODE_ID = 0 ∧ (args.FIRST_CN_ID ≤ 0 ∧ 0 ≤ args.LAST_CN_ID) ∧ args.CN_THREADS ≠ 0 ∧
    count = total_threads args.FIRST_CN_ID args.LAST_CN_ID args.CN_THREADS := by
  obtain ⟨memnodes, rfl⟩ := main_some args env fuel out h
  have hboot : ∀ l : List MachineInfo, (Action.allocate_root count : Action M) ∉
      bootstrap args.NODE_ID args.FIRST_MN_ID args.LAST_MN_ID args.FIRST_CN_ID
        args.LAST_CN_ID l := by
    intro l hin
    rw [bootstrap_eq] at hin
    split_ifs at hin <;> simp at hin
  split_ifs at hmem with hcn
  · unfold computePhase at hmem
    simp only [] at hmem
    split_ifs at hmem with c1 c2 c3 c4 c5 c6 <;>
      simp [hboot] at hmem <;>
      (refine ⟨by assumption, ?_, ?_, hmem⟩
       · have h0 : args.NODE_ID = 0 := by assumption
         rw [h0] at hcn
         exact ⟨hcn.1, hcn.2⟩
       · intro hz
         have h0 : args.NODE_ID = 0 := by assumption
         exact c1 ⟨h0, hz⟩)
  · exact absurd hmem (hboot _)

/-! ## Metrics -/

/-- After the joins every slot of `metric_total` holds the accumulator of
the thread with that local index. -/
theorem joinedMetrics_eq {M : Type} (threads : Nat) (metrics : Nat → M) :
    joinedMetrics threads metrics = (List.range threads).map (fun tid => some (metrics tid)) := by
  have key : ∀ k, k ≤ threads →
      (List.range k).foldl (fun mt tid => storeMetrics mt tid (metrics tid))
        (List.replicate threads none)
      = (List.range k).map (fun tid => some (metrics tid))
          ++ List.replicate (threads - k) none := by
    intro k
    induction k with
    | zero => intro _; simp
    | succ k ih =>
      intro hk
      rw [List.range_succ, List.foldl_append, ih (by omega)]
      simp only [List.foldl_cons, List.foldl_nil, storeMetrics, List.map_append,
        List.map_cons, List.map_nil]
      rw [List.set_append_right _ _ (by simp)]
      obtain ⟨r, hr⟩ : ∃ r, threads - k = r + 1 := ⟨threads - k - 1, by omega⟩
      have hr2 : threads - (k + 1) = r := by omega
      rw [hr, hr2]
      simp [List.replicate_succ]
  have h := key threads (Nat.le_refl _)
  simpa [joinedMetrics] using h

/-- The leader's loop over `metric_total` adds up the accumulators of the
local threads. -/
theorem reduceMetrics_joined {M : Type} [Zero M] [Add M] (threads : Nat) (metrics : Nat → M) :
    reduceMetrics (joinedMetrics threads metrics) = localTotal threads metrics := by
  rw [joinedMetrics_eq, reduceMetrics, localTotal, List.foldl_map]

/-- The bootstrap makes no reduction call. -/
theorem reductionCalls_bootstrap {M : Type} (id m0 mn c0 cn : Nat) (l : List MachineInfo) :
    reductionCalls (bootstrap id m0 mn c0 cn l : List (Action M)) = [] := by
  rw [bootstrap_eq, reductionCalls]
  split_ifs <;> simp [Action.reductionArg]

/-! ## Root table -/

/-- A slot that some thread of the schedule writes, all writers of the slot
writing the same value, holds that value after the publication; so does a
slot that held it before. -/
theorem publish_get (threads : Nat) (peer_raw : Nat → Nat → Nat) (g v : Nat) :
    ∀ (schedule : List (Nat × Nat)) (table : List (Option Nat)),
      (∀ p ∈ schedule, globalThreadId p.1 threads p.2 = g → peer_raw p.1 p.2 = v) →
      g < table.length →
      ((∃ p ∈ schedule, globalThreadId p.1 threads p.2 = g) ∨ table[g]? = some (some v)) →
      (publish threads peer_raw schedule table)[g]? = some (some v) := by
  intro schedule
  induction schedule with
  | nil =>
    intro table _ _ h
    rcases h with ⟨p, hp, _⟩ | h
    · cases hp
    · simpa [publish] using h
  | cons q rest ih =>
    intro table hval hlen h
    have hstep : publish threads peer_raw (q :: rest) table
        = publish threads peer_raw rest
            (remoteWrite table (globalThreadId q.1 threads q.2) (peer_raw q.1 q.2)) := rfl
    rw [hstep]
    apply ih
    · intro p hp
      exact hval p (List.mem_cons_of_mem _ hp)
    · simpa [remoteWrite] using hlen
    · by_cases hrest : ∃ p ∈ rest, globalThreadId p.1 threads p.2 = g
      · exact Or.inl hrest
      · right
        by_cases hq : globalThreadId q.1 threads q.2 = g
        · have hv := hval q (List.mem_cons_self _ _) hq
          rw [remoteWrite, hq, hv, List.getElem?_set_self hlen]
        · rcases h with ⟨p, hp, hpg⟩ | h
          · rcases List.mem_cons.mp hp with rfl | hp
            · exact absurd hpg hq
            · exact absurd ⟨p, hp, hpg⟩ hrest
          · rw [remoteWrite, List.getElem?_set_ne hq]
            exact h

/-! ## Status -/

/-- C10: for every status `s` and streamable `t`, `s << t` returns a status
with the type of `s` whose message is the previous message of `s` (the empty
string when there was none) followed by the text of `t`; `s` itself is left
with that same message and its type unchanged; `Status::Ok()` has type `Ok`
and no message. -/
theorem C10_status_shl {T : Type} [ToString T] (s : Status) (t : T) :
    (s.shl t).1.t = s.t ∧
    (s.shl t).1.message = some (s.message.getD "" ++ toString t) ∧
    (s.shl t).2.t = s.t ∧
    (s.shl t).2.message = some (s.message.getD "" ++ toString t) ∧
    Status.Ok.t = StatusType.Ok ∧ Status.Ok.message = none := by
  cases s with
  | mk ty msg =>
    cases msg <;> simp [Status.shl, Status.Ok]

/-! ## Global thread id -/

/-- C3, as stated, fails: with three compute nodes `0 .. 2` and `2 ^ 63`
threads per node, the threads `(0, 0)` and `(2, 0)` are different and get the
same 64-bit slot index. -/
theorem C3_globalThreadId_collision :
    (0 ≤ 0 ∧ 0 ≤ 2) ∧ (0 ≤ 2 ∧ 2 ≤ 2) ∧ 0 < 2 ^ 63 ∧ 2 ^ 63 < U64 ∧
    ((0, 0) : Nat × Nat) ≠ (2, 0) ∧
    globalThreadId 0 (2 ^ 63) 0 = globalThreadId 2 (2 ^ 63) 0 := by
  refine ⟨by omega, by omega, by norm_num, by norm_num [U64], ?_, ?_⟩
  · intro h
    have h1 := congrArg Prod.fst h
    simp at h1
  · simp [globalThreadId, u64add, u64mul, U64]

/-- Below the 64-bit bound, equal slot indices come from equal pairs. -/
theorem globalThreadId_eq_imp (c0 cn threads id1 tid1 id2 tid2 : Nat)
    (hfit : (cn - c0 + 1) * threads ≤ U64)
    (h1 : c0 ≤ id1 ∧ id1 ≤ cn) (h2 : c0 ≤ id2 ∧ id2 ≤ cn)
    (ht1 : tid1 < threads) (ht2 : tid2 < threads)
    (heq : globalThreadId id1 threads tid1 = globalThreadId id2 threads tid2) :
    id1 = id2 ∧ tid1 = tid2 := by
  simp only [globalThreadId, u64add, u64mul, U64, Nat.mod_add_mod] at heq
  simp only [U64] at hfit
  have hK : ∀ a b : Nat, c0 ≤ a → b ≤ cn →
      (b + 1) * threads ≤ a * threads + (cn - c0 + 1) * threads := by
    intro a b ha hb
    rw [← Nat.add_mul]
    exact Nat.mul_le_mul_right _ (by omega)
  have hS : ∀ a b : Nat, a < b → (a + 1) * threads ≤ b * threads := by
    intro a b hab
    exact Nat.mul_le_mul_right _ hab
  have e1 := hK id1 id2 h1.1 h2.2
  have e2 := hK id2 id1 h2.1 h1.2
  rw [Nat.add_mul, Nat.one_mul] at e1 e2
  rcases Nat.lt_trichotomy id1 id2 with hlt | heq' | hgt
  · have e3 := hS id1 id2 hlt
    rw [Nat.add_mul, Nat.one_mul] at e3
    omega
  · subst heq'
    omega
  · have e3 := hS id2 id1 hgt
    rw [Nat.add_mul, Nat.one_mul] at e3
    omega

/-- C3, amended: when the number of compute threads
`(cn - c0 + 1) * threads_per_node` is at most `2 ^ 64`, any two distinct
pairs (node id, local index) with `c0 ≤ id ≤ cn` and
`tid < threads_per_node` get different 64-bit slot indices
`id * threads_per_node + tid`. -/
theorem C3_globalThreadId_injective (c0 cn threads id1 tid1 id2 tid2 : Nat)
    (hfit : (cn - c0 + 1) * threads ≤ U64)
    (h1 : c0 ≤ id1 ∧ id1 ≤ cn) (h2 : c0 ≤ id2 ∧ id2 ≤ cn)
    (ht1 : tid1 < threads) (ht2 : tid2 < threads)
    (hne : (id1, tid1) ≠ (id2, tid2)) :
    globalThreadId id1 threads tid1 ≠ globalThreadId id2 threads tid2 := by
  intro heq
  obtain ⟨e1, e2⟩ := globalThreadId_eq_imp c0 cn threads id1 tid1 id2 tid2 hfit h1 h2 ht1 ht2 heq
  exact hne (by rw [e1, e2])

/-- Witness of `C3_globalThreadId_injective`: compute nodes `3 .. 4` with four
threads each; the threads `(3, 1)` and `(4, 0)` get the indices 13 and 16. -/
theorem C3_globalThreadId_injective_witness :
    (4 - 3 + 1) * 4 ≤ U64 ∧ (3 ≤ 3 ∧ 3 ≤ 4) ∧ (3 ≤ 4 ∧ 4 ≤ 4) ∧ 1 < 4 ∧ 0 < 4 ∧
    ((3, 1) : Nat × Nat) ≠ (4, 0) ∧
    globalThreadId 3 4 1 ≠ globalThreadId 4 4 0 := by
  have hfit : (4 - 3 + 1) * 4 ≤ U64 := by norm_num [U64]
  have hne : ((3, 1) : Nat × Nat) ≠ (4, 0) := by
    intro h
    have h1 := congrArg Prod.fst h
    simp at h1
  exact ⟨hfit, by omega, by omega, by omega, by omega, hne,
    C3_globalThreadId_injective 3 4 4 3 1 4 0 hfit (by omega) (by omega) (by omega)
      (by omega) hne⟩

/-! ## Region layout -/

/-- C4, as stated, fails: with `capacity = 2 ^ 63` and `payload_size = 8` the
64-bit count passed to `allocate` is `8`, not `2 * capacity + payload_size`,
and the offset `8` of `Proposed` lies outside `[0, 8)`. -/
theorem C4_layout_overflow :
    2 ^ 63 < U64 ∧ 8 < U64 ∧
    (worker { NODE_ID := 0, FIRST_MN_ID := 0, LAST_MN_ID := 0, FIRST_CN_ID := 0,
              LAST_CN_ID := 0, CN_THREADS := 1, CN_OPS_PER_THREAD := 1,
              QP_SCHED_POL := "ONE_TO_ONE", PAYLOAD_SIZE := 8, CAPACITY := 2 ^ 63 }
        0 0 0)[1]? = some (ThreadCall.allocate 8) ∧
    allocCount (2 ^ 63) 8 ≠ 2 * 2 ^ 63 + 8 ∧
    (Proposed (2 ^ 63)).contains 8 ∧ ¬ (8 < allocCount (2 ^ 63) 8) := by
  refine ⟨by norm_num [U64], by norm_num [U64], ?_, ?_, ?_, ?_⟩
  · simp [worker, allocCount, u64add, u64mul, U64]
  · simp [allocCount, u64add, u64mul, U64]
  · simp [Proposed, Range.contains]
  · simp [allocCount, u64add, u64mul, U64]

/-- C4, amended: whenever `2 * capacity + payload_size` fits in 64 bits, every
worker passes `2 * capacity + payload_size` to `allocate`, whatever its
other inputs are, and `Proposed`, `Log` and `Buf` are pairwise disjoint and
together cover exactly the offsets below that count. -/
theorem C4_region_layout (args : Args) (root peer_raw tid : Nat)
    (hfit : 2 * args.CAPACITY + args.PAYLOAD_SIZE < U64) :
    (worker args root peer_raw tid)[1]?
      = some (ThreadCall.allocate (2 * args.CAPACITY + args.PAYLOAD_SIZE)) ∧
    allocCount args.CAPACITY args.PAYLOAD_SIZE = 2 * args.CAPACITY + args.PAYLOAD_SIZE ∧
    (∀ x, ¬ ((Proposed args.CAPACITY).contains x ∧ (Log args.CAPACITY).contains x)) ∧
    (∀ x, ¬ ((Proposed args.CAPACITY).contains x ∧
              (Buf args.CAPACITY args.PAYLOAD_SIZE).contains x)) ∧
    (∀ x, ¬ ((Log args.CAPACITY).contains x ∧
              (Buf args.CAPACITY args.PAYLOAD_SIZE).contains x)) ∧
    (∀ x, ((Proposed args.CAPACITY).contains x ∨ (Log args.CAPACITY).contains x ∨
            (Buf args.CAPACITY args.PAYLOAD_SIZE).contains x)
          ↔ x < allocCount args.CAPACITY args.PAYLOAD_SIZE) := by
  have hc : allocCount args.CAPACITY args.PAYLOAD_SIZE
      = 2 * args.CAPACITY + args.PAYLOAD_SIZE := by
    simp only [allocCount, u64add, u64mul, U64] at *
    omega
  refine ⟨by simp [worker, hc], hc, ?_, ?_, ?_, ?_⟩
  · intro x
    simp only [Proposed, Log, Range.contains]
    omega
  · intro x
    simp only [Proposed, Buf, Range.contains]
    omega
  · intro x
    simp only [Log, Buf, Range.contains]
    omega
  · intro x
    rw [hc]
    simp only [Proposed, Log, Buf, Range.contains]
    omega

/-- Witness of `C4_region_layout`: `capacity = 4`, `payload_size = 8`
requests 16 elements. -/
theorem C4_region_layout_witness :
    2 * 4 + 8 < U64 ∧
    allocCount 4 8 = 16 ∧
    (worker { NODE_ID := 0, FIRST_MN_ID := 0, LAST_MN_ID := 0, FIRST_CN_ID := 0,
              LAST_CN_ID := 0, CN_THREADS := 1, CN_OPS_PER_THREAD := 1,
              QP_SCHED_POL := "ONE_TO_ONE", PAYLOAD_SIZE := 8, CAPACITY := 4 }
        0 0 0)[1]? = some (ThreadCall.allocate 16) :=
  have h := C4_region_layout
    { NODE_ID := 0, FIRST_MN_ID := 0, LAST_MN_ID := 0, FIRST_CN_ID := 0,
      LAST_CN_ID := 0, CN_THREADS := 1, CN_OPS_PER_THREAD := 1,
      QP_SCHED_POL := "ONE_TO_ONE", PAYLOAD_SIZE := 8, CAPACITY := 4 } 0 0 0
    (by norm_num [U64])
  ⟨by norm_num [U64], h.2.1, h.1⟩

/-! ## Phase order of a worker -/

/-- C7: the calls of every worker thread are exactly: arrive at the barrier
with target `total_threads`, allocate, `get_root`, write the allocated base
to the root slot of the global id, arrive, run the driver, arrive, store the
metrics.  So a worker arrives three times, always with target
`total_threads`; allocation and root write come after the first arrival, the
run after the second, the metrics store after the third. -/
theorem C7_worker_phase_order (args : Args) (root peer_raw tid : Nat) :
    worker args root peer_raw tid =
      [ ThreadCall.arrive_control_barrier
          (total_threads args.FIRST_CN_ID args.LAST_CN_ID args.CN_THREADS),
        ThreadCall.allocate (allocCount args.CAPACITY args.PAYLOAD_SIZE),
        ThreadCall.get_root,
        ThreadCall.Write root (globalThreadId args.NODE_ID args.CN_THREADS tid) peer_raw,
        ThreadCall.arrive_control_barrier
          (total_threads args.FIRST_CN_ID args.LAST_CN_ID args.CN_THREADS),
        ThreadCall.RUN (total_threads args.FIRST_CN_ID args.LAST_CN_ID args.CN_THREADS)
          (system_size args.FIRST_CN_ID args.LAST_CN_ID),
        ThreadCall.arrive_control_barrier
          (total_threads args.FIRST_CN_ID args.LAST_CN_ID args.CN_THREADS),
        ThreadCall.store_metrics tid ] ∧
    ((worker args root peer_raw tid).filter ThreadCall.isArrive).length = 3 ∧
    (∀ c ∈ worker args root peer_raw tid, c.isArrive = true →
      c = ThreadCall.arrive_control_barrier
            (total_threads args.FIRST_CN_ID args.LAST_CN_ID args.CN_THREADS)) ∧
    (∀ k c, (worker args root peer_raw tid)[k]? = some c →
      (c.isPublish = true → 1 ≤ arrivalsBefore (worker args root peer_raw tid) k) ∧
      (c.isRun = true → 2 ≤ arrivalsBefore (worker args root peer_raw tid) k) ∧
      (c.isStore = true → arrivalsBefore (worker args root peer_raw tid) k = 3)) := by
  refine ⟨rfl, by simp [worker, ThreadCall.isArrive], ?_, ?_⟩
  · intro c hc
    simp only [worker, List.mem_cons, List.mem_singleton, List.not_mem_nil, or_false] at hc
    rcases hc with h | h | h | h | h | h | h | h <;> subst h <;>
      simp [ThreadCall.isArrive]
  · intro k c hk
    have hlen : k < 8 := by
      by_contra hge
      have : (worker args root peer_raw tid)[k]? = none := by
        apply List.getElem?_eq_none
        simp only [worker, List.length_cons, List.length_nil]
        omega
      rw [this] at hk
      exact Option.noConfusion hk
    interval_cases k <;>
      simp [worker] at hk <;> subst hk <;>
      simp [worker, arrivalsBefore, ThreadCall.isPublish, ThreadCall.isRun,
        ThreadCall.isStore, ThreadCall.isArrive]

/-! ## Role resolution, bootstrap order and batch check at the ends of the range -/

/-- C1, on the code: the only memory node has the identifier `2 ^ 64 - 1`
(`m0 = mn = id`), so the claim has the process construct a `MemoryNode`; the
loop `for (uint64_t i = m0; i <= mn; ++i)` that fills `memnodes` never
leaves, and `main` constructs nothing, whatever the fuel. -/
theorem C1_role_resolution_unreached :
    argsMemoryOnlyMax.valid ∧
    (argsMemoryOnlyMax.FIRST_MN_ID ≤ argsMemoryOnlyMax.NODE_ID ∧
      argsMemoryOnlyMax.NODE_ID ≤ argsMemoryOnlyMax.LAST_MN_ID) ∧
    (∀ fuel, main argsMemoryOnlyMax envOne fuel = none) ∧
    (∀ fuel, memnodesLoop fuel argsMemoryOnlyMax.FIRST_MN_ID argsMemoryOnlyMax.LAST_MN_ID []
      = none) := by
  refine ⟨by simp [Args.valid, argsMemoryOnlyMax, U64], by simp [argsMemoryOnlyMax], ?_, ?_⟩
  · intro fuel
    exact main_diverges _ _ _ (by simp [argsMemoryOnlyMax, U64]) (by simp [argsMemoryOnlyMax, U64])
  · intro fuel
    exact memnodesLoop_max fuel _ _ (by simp [argsMemoryOnlyMax, U64])

/-- C6, on the code: the process `0` is in both ranges and the memory range
ends at `2 ^ 64 - 1`; the claim has `main` perform the five bootstrap steps,
and `main` performs none, whatever the fuel. -/
theorem C6_bootstrap_unreached :
    argsLastMnMax.valid ∧
    (argsLastMnMax.FIRST_MN_ID ≤ argsLastMnMax.NODE_ID ∧
      argsLastMnMax.NODE_ID ≤ argsLastMnMax.LAST_MN_ID) ∧
    (argsLastMnMax.FIRST_CN_ID ≤ argsLastMnMax.NODE_ID ∧
      argsLastMnMax.NODE_ID ≤ argsLastMnMax.LAST_CN_ID) ∧
    (∀ fuel, (main argsLastMnMax envOne fuel).map (fun out => out.trace) = none) := by
  refine ⟨by simp [Args.valid, argsLastMnMax, U64], by simp [argsLastMnMax],
    by simp [argsLastMnMax], ?_⟩
  intro fuel
  rw [main_diverges _ _ _ (by simp [argsLastMnMax, U64]) (by simp [argsLastMnMax, U64])]
  rfl

/-- C5, on the code: (a) the process `0` with `CN_THREADS = 0` and a batch
size of `1` (`total_threads = 0`) reaches `compute_threads[0]` on an empty
vector before the batch-size assertion, so it does not end by
`std::_Exit(1)`; (b) a compute node with a wrong batch size whose memory
range ends at `2 ^ 64 - 1` never reaches the assertion. -/
theorem C5_batch_check_unreached :
    (argsNoThreads.valid ∧
      (argsNoThreads.FIRST_CN_ID ≤ argsNoThreads.NODE_ID ∧
        argsNoThreads.NODE_ID ≤ argsNoThreads.LAST_CN_ID) ∧
      argsNoThreads.CN_OPS_PER_THREAD
        ≠ total_threads argsNoThreads.FIRST_CN_ID argsNoThreads.LAST_CN_ID
            argsNoThreads.CN_THREADS ∧
      (main argsNoThreads envOne 2).map (fun out => out.exit) = some Exit.undefined) ∧
    (argsBadBatchMax.valid ∧
      (argsBadBatchMax.FIRST_CN_ID ≤ argsBadBatchMax.NODE_ID ∧
        argsBadBatchMax.NODE_ID ≤ argsBadBatchMax.LAST_CN_ID) ∧
      argsBadBatchMax.CN_OPS_PER_THREAD
        ≠ total_threads argsBadBatchMax.FIRST_CN_ID argsBadBatchMax.LAST_CN_ID
            argsBadBatchMax.CN_THREADS ∧
      (∀ fuel, (main argsBadBatchMax envOne fuel).map (fun out => out.exit) = none)) := by
  refine ⟨⟨by simp [Args.valid, argsNoThreads, U64], by simp [argsNoThreads],
      by simp [argsNoThreads, total_threads, u64mul, u64add, u64sub, U64], ?_⟩,
    ⟨by simp [Args.valid, argsBadBatchMax, U64], by simp [argsBadBatchMax],
      by simp [argsBadBatchMax, total_threads, u64mul, u64add, u64sub, U64], ?_⟩⟩
  · rw [main_eq _ _ _ (by simp [argsNoThreads, U64]) (by simp [argsNoThreads])]
    simp [argsNoThreads, computePhase]
  · intro fuel
    rw [main_diverges _ _ _ (by simp [argsBadBatchMax, U64]) (by simp [argsBadBatchMax, U64])]
    rfl

/-! ## Allocations -/

/-- C8, as stated, fails: the leader of two compute machines `0 .. 1` with
one thread each, every thread holding an accumulator of `1`, hands the total
`1` (its own thread) to `calc`, `print` and `log_csv`, while the merge of
the accumulators of all `total_threads = 2` threads is `2`. -/
theorem C8_leader_total_is_local :
    argsLeaderOfTwo.valid ∧
    total_threads argsLeaderOfTwo.FIRST_CN_ID argsLeaderOfTwo.LAST_CN_ID
      argsLeaderOfTwo.CN_THREADS = 2 ∧
    (main argsLeaderOfTwo envOne 2).map (fun out => out.exit) = some (Exit.returned 0) ∧
    (main argsLeaderOfTwo envOne 2).map (fun out => reductionCalls out.trace)
      = some [1, 1, 1] ∧
    specGlobalTotal argsLeaderOfTwo.FIRST_CN_ID argsLeaderOfTwo.LAST_CN_ID
      argsLeaderOfTwo.CN_THREADS (fun _ tid => envOne.metrics tid) = 2 := by
  have ht : total_threads argsLeaderOfTwo.FIRST_CN_ID argsLeaderOfTwo.LAST_CN_ID
      argsLeaderOfTwo.CN_THREADS = 2 := by
    simp [argsLeaderOfTwo, total_threads, u64mul, u64add, u64sub, U64]
  refine ⟨by simp [Args.valid, argsLeaderOfTwo, U64], ht, ?_, ?_, ?_⟩
  · rw [main_eq _ _ _ (by simp [argsLeaderOfTwo, U64]) (by simp [argsLeaderOfTwo])]
    simp [computePhase, ht]
    simp [argsLeaderOfTwo]
  · rw [main_eq _ _ _ (by simp [argsLeaderOfTwo, U64]) (by simp [argsLeaderOfTwo])]
    simp [computePhase, ht]
    have hb : reductionCalls (bootstrap 0 0 0 0 1 (memnodesOf 0 0) : List (Action Nat)) = [] :=
      reductionCalls_bootstrap 0 0 0 0 1 _
    simp [argsLeaderOfTwo, reductionCalls, List.filterMap_append,
      Action.reductionArg, reduceMetrics_joined, localTotal, envOne, List.range_succ] at hb ⊢
    exact hb
  · simp [specGlobalTotal, argsLeaderOfTwo, envOne, List.range_succ, List.range'_succ]

/-- C8, amended: `main` hands to `calc`, `print` and `log_csv` only on the
machine with id 0, after all its workers are joined, and the value is the
merge (`+=` from a default-constructed total) of the accumulators of the
`threads_per_node` worker threads of that machine itself; a machine with
id != 0 makes none of these calls. -/
theorem C8_metrics_reduction {M : Type} [Zero M] [Add M] (args : Args) (env : Env M)
    (fuel : Nat) (hmn : args.LAST_MN_ID + 1 < U64) (hfuel : args.LAST_MN_ID + 2 ≤ fuel) :
    ∃ out, main args env fuel = some out ∧
      (args.NODE_ID ≠ 0 → reductionCalls out.trace = []) ∧
      (args.NODE_ID = 0 →
        (args.FIRST_CN_ID ≤ args.NODE_ID ∧ args.NODE_ID ≤ args.LAST_CN_ID) →
        args.CN_THREADS ≠ 0 →
        total_threads args.FIRST_CN_ID args.LAST_CN_ID args.CN_THREADS
          = args.CN_OPS_PER_THREAD →
        args.QP_SCHED_POL = "ONE_TO_ONE" →
        out.exit = Exit.returned 0 ∧
        ∃ before, reductionCalls before = [] ∧
          out.trace = before ++ (List.range args.CN_THREADS).map (fun tid => Action.join tid)
            ++ [Action.util_calc (localTotal args.CN_THREADS env.metrics),
                Action.info "Experiment results:",
                Action.util_print (localTotal args.CN_THREADS env.metrics),
                Action.util_log_csv (localTotal args.CN_THREADS env.metrics) "results.csv",
                Action.info "Cas-Paxos experiment completed successfully."]) := by
  have hb : reductionCalls (bootstrap args.NODE_ID args.FIRST_MN_ID args.LAST_MN_ID
      args.FIRST_CN_ID args.LAST_CN_ID (memnodesOf args.FIRST_MN_ID args.LAST_MN_ID)
        : List (Action M)) = [] := reductionCalls_bootstrap _ _ _ _ _ _
  refine ⟨_, main_eq args env fuel hmn hfuel, ?_, ?_⟩
  · intro hid
    split_ifs
    · unfold computePhase
      simp only [hid, false_and, if_false]
      split_ifs <;>
        (simp [reductionCalls, List.filterMap_append, List.filterMap_map,
          Action.reductionArg] at hb ⊢; exact hb)
    · exact hb
  · intro hid hcn hthr htot hpol
    have hcn2 : args.NODE_ID ≥ args.FIRST_CN_ID ∧ args.NODE_ID ≤ args.LAST_CN_ID := hcn
    have hnot : ¬ (args.NODE_ID = 0 ∧ args.CN_THREADS = 0) := fun h => hthr h.2
    simp only [if_pos hcn2, computePhase, if_neg hnot, htot, ne_eq, not_true_eq_false,
      if_false, hpol, if_pos hid, reduceMetrics_joined]
    refine ⟨trivial,
      bootstrap args.NODE_ID args.FIRST_MN_ID args.LAST_MN_ID args.FIRST_CN_ID args.LAST_CN_ID
          (memnodesOf args.FIRST_MN_ID args.LAST_MN_ID)
        ++ (List.range args.CN_THREADS).map (fun _ => Action.AsyncComputeThread args.NODE_ID)
        ++ [Action.info ("Starting Cas-Paxos experiment with "
              ++ toString args.CN_OPS_PER_THREAD ++ " threads"),
            Action.allocate_root args.CN_OPS_PER_THREAD, Action.set_root env.root]
        ++ (List.range args.CN_THREADS).map
            (fun tid => Action.spawn tid (worker args env.root (env.peer_raw tid) tid)),
      ?_, ?_⟩
    · simp [reductionCalls, List.filterMap_append, List.filterMap_map,
        Action.reductionArg] at hb ⊢
      exact hb
    · simp [List.append_assoc]

/-- Witness of `C8_metrics_reduction`: the single process of the end-to-end
scenario hands its own thread's accumulator to the three calls. -/
theorem C8_metrics_reduction_witness :
    argsSingle.LAST_MN_ID + 1 < U64 ∧ argsSingle.LAST_MN_ID + 2 ≤ 2 ∧
    ∃ out, main argsSingle envOne 2 = some out ∧ reductionCalls out.trace = [1, 1, 1] := by
  have h1 : argsSingle.LAST_MN_ID + 1 < U64 := by simp [argsSingle, U64]
  have h2 : argsSingle.LAST_MN_ID + 2 ≤ 2 := by simp [argsSingle]
  obtain ⟨out, hout, _, hlead⟩ := C8_metrics_reduction argsSingle envOne 2 h1 h2
  refine ⟨h1, h2, out, hout, ?_⟩
  obtain ⟨_, before, hb, htr⟩ := hlead rfl (by simp [argsSingle]) (by simp [argsSingle])
    (by simp [argsSingle, total_threads, u64mul, u64add, u64sub, U64]) rfl
  rw [htr]
  unfold reductionCalls at hb ⊢
  rw [List.filterMap_append, List.filterMap_append, hb]
  simp [Action.reductionArg, localTotal, argsSingle, envOne, List.range_succ]

/-! ## Root publication -/

/-- C2, as stated, fails.  (a) With the one compute node `1` (`c0 = cn = 1`)
and one thread, `c0 <= cn` and `threads_per_node >= 1` hold and the thread
`(1, 0)` has made its write, to the offset `1`; no process allocates a root
table; and in a table of `total_threads = 1` slots the slot `0` is left
unwritten.  (b) With the compute nodes `0 .. 2` and `2 ^ 63` threads per
node the 64-bit `total_threads` is `2 ^ 63`, and the threads `(0, 0)` and
`(2, 0)` both write the slot `0`, which holds the base of whichever wrote
last. -/
theorem C2_root_slot_unwritten :
    (1 ≤ 1 ∧ completeSchedule 1 1 1 [(1, 0)] ∧
      total_threads 1 1 1 = 1 ∧ globalThreadId 1 1 0 = 1 ∧
      rootAlloc 1 1 1 = none ∧
      (publish 1 (fun _ _ => 2000) [(1, 0)] (List.replicate (total_threads 1 1 1) none))[0]?
        = some none) ∧
    (0 ≤ 2 ∧ 1 ≤ 2 ^ 63 ∧ 2 ^ 63 < U64 ∧ total_threads 0 2 (2 ^ 63) = 2 ^ 63 ∧
      globalThreadId 0 (2 ^ 63) 0 = 0 ∧ globalThreadId 2 (2 ^ 63) 0 = 0 ∧
      (publish (2 ^ 63) (fun id _ => 2000 + id) [(0, 0), (2, 0)] [none, none])[0]?
        = some (some 2002) ∧
      (publish (2 ^ 63) (fun id _ => 2000 + id) [(2, 0), (0, 0)] [none, none])[0]?
        = some (some 2000)) := by
  have ht : total_threads 1 1 1 = 1 := by
    simp [total_threads, u64mul, u64add, u64sub, U64]
  have hg : globalThreadId 1 1 0 = 1 := by
    simp [globalThreadId, u64mul, u64add, U64]
  have hg0 : globalThreadId 0 (2 ^ 63) 0 = 0 := by
    simp [globalThreadId, u64mul, u64add, U64]
  have hg2 : globalThreadId 2 (2 ^ 63) 0 = 0 := by
    simp [globalThreadId, u64mul, u64add, U64]
  refine ⟨⟨Nat.le_refl 1, ⟨?_, ?_⟩, ht, hg, by simp [rootAlloc], ?_⟩,
    ⟨by omega, by norm_num, by norm_num [U64],
      by simp [total_threads, u64mul, u64add, u64sub, U64], hg0, hg2, ?_, ?_⟩⟩
  · intro p hp
    simp at hp
    subst hp
    simp
  · intro id tid h1 h2 h3
    have e1 : id = 1 := by omega
    have e2 : tid = 0 := by omega
    simp [e1, e2]
  · rw [ht]
    simp [publish, remoteWrite, hg]
  · simp only [publish, List.foldl_cons, List.foldl_nil, remoteWrite, hg0, hg2]
    rfl
  · simp only [publish, List.foldl_cons, List.foldl_nil, remoteWrite, hg0, hg2]
    rfl

/-- C2, amended: when the compute nodes are `0 .. cn` (`c0 = 0`), there is
at least one thread per node and `(cn + 1) * threads_per_node` is below
`2 ^ 64`, the process `0` allocates a root table of
`total_threads = (cn + 1) * threads_per_node` slots, and once every compute
thread of every compute node has made its write, in any order, each slot `g`
below `total_threads` holds the base address allocated by the thread whose
global id is `g`, that is the thread `g % threads_per_node` of the node
`g / threads_per_node`. -/
theorem C2_root_publication (cn threads : Nat) (peer_raw : Nat → Nat → Nat)
    (schedule : List (Nat × Nat))
    (hthreads : 1 ≤ threads) (hfit : (cn + 1) * threads < U64)
    (hsched : completeSchedule 0 cn threads schedule) :
    total_threads 0 cn threads = (cn + 1) * threads ∧
    ∃ table, rootAlloc 0 cn threads = some table ∧
      table.length = total_threads 0 cn threads ∧
      ∀ g, g < total_threads 0 cn threads →
        globalThreadId (g / threads) threads (g % threads) = g ∧
        (publish threads peer_raw schedule table)[g]?
          = some (some (peer_raw (g / threads) (g % threads))) := by
  have hcn : cn < U64 := by
    have : cn + 1 ≤ (cn + 1) * threads := Nat.le_mul_of_pos_right _ hthreads
    omega
  have htot : total_threads 0 cn threads = (cn + 1) * threads := by
    have h1 : u64sub cn 0 = cn := by
      simp only [u64sub, Nat.sub_zero, Nat.add_mod_right]
      exact Nat.mod_eq_of_lt hcn
    have h2 : u64add cn 1 = cn + 1 := by
      unfold u64add
      apply Nat.mod_eq_of_lt
      have : cn + 1 ≤ (cn + 1) * threads := Nat.le_mul_of_pos_right _ hthreads
      omega
    simp only [total_threads, h1, h2, u64mul]
    exact Nat.mod_eq_of_lt hfit
  have hgid : ∀ id tid, id ≤ cn → tid < threads →
      globalThreadId id threads tid = id * threads + tid := by
    intro id tid hid htid
    have hb : id * threads + tid < U64 := by
      have : (id + 1) * threads ≤ (cn + 1) * threads := Nat.mul_le_mul_right _ (by omega)
      rw [Nat.add_mul, Nat.one_mul] at this
      omega
    have hb2 : id * threads < U64 := by omega
    simp only [globalThreadId, u64add, u64mul, Nat.mod_eq_of_lt hb2, Nat.mod_eq_of_lt hb]
  refine ⟨htot, List.replicate (total_threads 0 cn threads) none, ?_, by simp, ?_⟩
  · have hne : threads ≠ 0 := by omega
    simp [rootAlloc, hne]
  · intro g hg
    rw [htot] at hg
    have hpos : 0 < threads := hthreads
    have hdiv : g / threads ≤ cn := by
      have : g / threads < cn + 1 := (Nat.div_lt_iff_lt_mul hpos).mpr hg
      omega
    have hmod : g % threads < threads := Nat.mod_lt _ hpos
    have hgg : globalThreadId (g / threads) threads (g % threads) = g := by
      rw [hgid _ _ hdiv hmod, Nat.mul_comm]
      exact Nat.div_add_mod g threads
    refine ⟨hgg, ?_⟩
    apply publish_get
    · intro p hp hpg
      obtain ⟨_, hp1, hp2⟩ := hsched.1 p hp
      rw [hgid _ _ hp1 hp2] at hpg
      have e1 : g / threads = p.1 := by
        rw [← hpg, Nat.mul_comm, Nat.mul_add_div hpos, Nat.div_eq_of_lt hp2, Nat.add_zero]
      have e2 : g % threads = p.2 := by
        rw [← hpg, Nat.mul_comm, Nat.mul_add_mod, Nat.mod_eq_of_lt hp2]
      rw [e1, e2]
    · simpa [htot] using hg
    · left
      exact ⟨(g / threads, g % threads), hsched.2 _ _ (Nat.zero_le _) hdiv hmod, hgg⟩

/-- Witness of `C2_root_publication`: two nodes `0 .. 1` with two threads
each, the writes made in a mixed order; the four slots hold the four bases. -/
theorem C2_root_publication_witness :
    (1 ≤ 2 ∧ (1 + 1) * 2 < U64 ∧
      completeSchedule 0 1 2 [(1, 0), (0, 1), (1, 1), (0, 0)]) ∧
    total_threads 0 1 2 = 4 ∧
    ∃ table, rootAlloc 0 1 2 = some table ∧
      (publish 2 (fun id tid => 100 * id + tid) [(1, 0), (0, 1), (1, 1), (0, 0)] table)[3]?
        = some (some 101) := by
  have h1 : (1 + 1) * 2 < U64 := by norm_num [U64]
  have h2 : completeSchedule 0 1 2 [(1, 0), (0, 1), (1, 1), (0, 0)] := by
    constructor
    · intro p hp
      simp at hp
      rcases hp with h | h | h | h <;> subst h <;> simp
    · intro id tid _ hid htid
      have hid2 : id = 0 ∨ id = 1 := by omega
      have htid2 : tid = 0 ∨ tid = 1 := by omega
      rcases hid2 with h | h <;> rcases htid2 with h' | h' <;> subst h <;> subst h' <;> simp
  obtain ⟨htot, table, hroot, _, hslots⟩ := C2_root_publication 1 2
    (fun id tid => 100 * id + tid) [(1, 0), (0, 1), (1, 1), (0, 0)] (Nat.le_succ 1) h1 h2
  refine ⟨⟨Nat.le_succ 1, h1, h2⟩, by rw [htot], table, hroot, ?_⟩
  have h3 := (hslots 3 (by rw [htot]; norm_num)).2
  simpa using h3

end Romulus
